import Mathlib

/-!
Verification of the extraction-and-aggregation core of a ski world-cup
points application (src/app.py): event-id extraction from a URL
(extract_event_id_from_url), a schema-agnostic search for result-like
records in a JSON tree (_find_result_items), the normalizer of the
Results list (parse_results_from_json), and the per-nation points
aggregator (compute_points_by_nation).

Values parsed from JSON are modelled by the inductive `Json`; numbers are
exact rationals, so Python ints and finite floats both land in
`Json.num`.  Python exceptions relevant to the translated code are
modelled by `PyErr`; functions that can raise return `Except PyErr`.
Character-level operations are modelled over ASCII text (Python's
Unicode-aware digit and whitespace classes restricted to ASCII).
-/

namespace SkiWC

/-- A parsed JSON value as Python's json module produces it: None, bool,
numbers (int or float, modelled exactly as rationals), str, list and
dict.  A dict keeps its insertion order and, coming from a JSON parse,
has pairwise distinct keys; lookups take the first binding. -/
inductive Json where
  | null
  | bool (b : Bool)
  | num (q : Rat)
  | str (s : String)
  | arr (xs : List Json)
  | obj (kvs : List (String × Json))

/-- The Python exceptions the translated code can raise or catch. -/
inductive PyErr where
  | typeError
  | valueError
  | attributeError
deriving DecidableEq, Repr

/-- Python truthiness of a parsed-JSON value: None, False, zero, and the
empty string, list and dict are falsy; everything else is truthy. -/
def pyFalsy : Json → Bool
  | .null => true
  | .bool b => !b
  | .num q => decide (q = 0)
  | .str s => s.isEmpty
  | .arr xs => xs.isEmpty
  | .obj kvs => kvs.isEmpty

/-- Python item.get(key, default): the binding of the key when the value
is a dict and the key is present, the default when it is absent, and an
AttributeError when the value is not a dict. -/
def pyGet (j : Json) (key : String) (dflt : Json) : Except PyErr Json :=
  match j with
  | .obj kvs =>
    match kvs.lookup key with
    | some v => .ok v
    | none => .ok dflt
  | _ => .error .attributeError

/-- Iterating a Python value with a for loop: lists yield their elements,
strings their characters (as one-character strings), dicts their keys;
other values raise a TypeError. -/
def pyIter : Json → Except PyErr (List Json)
  | .arr xs => .ok xs
  | .str s => .ok (s.data.map fun c => Json.str (String.singleton c))
  | .obj kvs => .ok (kvs.map fun kv => Json.str kv.1)
  | _ => .error .typeError

/-- The ASCII whitespace characters Python's int() and str.strip() ignore. -/
def isPySpace (c : Char) : Bool :=
  c == ' ' || c == '\t' || c == '\n' || c == '\r' || c == '\x0b' || c == '\x0c'

/-- Remove leading and trailing whitespace from a character list. -/
def stripChars (cs : List Char) : List Char :=
  ((cs.dropWhile isPySpace).reverse.dropWhile isPySpace).reverse

/-- The tail of an integer literal after its first digit: further digits,
with single underscores allowed between two digits, accumulating the value. -/
def digitsCore : List Char → Nat → Option Nat
  | [], acc => some acc
  | c :: rest, acc =>
    if c.isDigit then digitsCore rest (acc * 10 + (c.toNat - 48))
    else if c == '_' then
      match rest with
      | c2 :: r2 =>
        if c2.isDigit then digitsCore r2 (acc * 10 + (c2.toNat - 48)) else none
      | [] => none
    else none

/-- Python int() applied to a string: optional surrounding whitespace, an
optional sign, then a nonempty digit run with single underscores allowed
between digits. -/
def pyIntOfStr (s : String) : Option Int :=
  let cs := stripChars s.data
  let signed : Bool × List Char :=
    match cs with
    | '+' :: r => (false, r)
    | '-' :: r => (true, r)
    | r => (false, r)
  match signed.2 with
  | c :: rest =>
    if c.isDigit then
      match digitsCore rest (c.toNat - 48) with
      | some n => some (if signed.1 then -(n : Int) else (n : Int))
      | none => none
    else none
  | [] => none

/-- Integer conversion of a number truncates toward zero, as Python int()
does on a float (and is the identity on an int). -/
def ratTrunc (q : Rat) : Int := q.num.tdiv (q.den : Int)

/-- Python int(x) on a parsed-JSON value: numbers truncate toward zero,
booleans give 0 or 1, strings are parsed as integer literals (ValueError
on failure), and None, lists and dicts raise a TypeError. -/
def pyInt : Json → Except PyErr Int
  | .null => .error .typeError
  | .bool b => .ok (if b then 1 else 0)
  | .num q => .ok (ratTrunc q)
  | .str s =>
    match pyIntOfStr s with
    | some n => .ok n
    | none => .error .valueError
  | .arr _ => .error .typeError
  | .obj _ => .error .typeError

/-- Python (x or ""): the value itself when truthy, else the empty string. -/
def pyOrEmptyStr (j : Json) : Json := if pyFalsy j then .str "" else j

/-- Python a + b where one operand is expected to be a string:
concatenation when both are strings, TypeError otherwise. -/
def pyAddStr : Json → Json → Except PyErr Json
  | .str a, .str b => .ok (.str (a ++ b))
  | _, _ => .error .typeError

/-- Python value.strip(): remove whitespace from both ends of a string;
AttributeError when the receiver is not a string. -/
def pyStrip : Json → Except PyErr Json
  | .str s => .ok (.str (stripChars s.data).asString)
  | _ => .error .attributeError

/-- The fixed rank-to-points table of src/app.py (FIS_POINTS). -/
def FIS_POINTS : List (Int × Nat) :=
  [(1, 100), (2, 80), (3, 60), (4, 50), (5, 45),
   (6, 40), (7, 36), (8, 32), (9, 29), (10, 26),
   (11, 24), (12, 22), (13, 20), (14, 18), (15, 16),
   (16, 15), (17, 14), (18, 13), (19, 12), (20, 11),
   (21, 10), (22, 9), (23, 8), (24, 7), (25, 6),
   (26, 5), (27, 4), (28, 3), (29, 2), (30, 1)]

/-- The table as the aggregator applies it, Rank.map(FIS_POINTS).fillna(0):
the table value of a rank, and 0 for a rank outside the table. -/
def fisScore (r : Int) : Nat := (FIS_POINTS.lookup r).getD 0

/-- Marker matching of the regex (?:/event/|/sportevents/)(\d+): when one
of the two markers is a prefix here, the rest of the text after it. -/
def markerTail (cs : List Char) : Option (List Char) :=
  if "/event/".data.isPrefixOf cs then some (cs.drop 7)
  else if "/sportevents/".data.isPrefixOf cs then some (cs.drop 13)
  else none

/-- The maximal digit run at the head of a character list (the greedy
capture group). -/
def digitRun (cs : List Char) : List Char := cs.takeWhile Char.isDigit

/-- The regex search of extract_event_id_from_url compiled to a scan: at
each position, left to right, the pattern matches when a marker is a
prefix there and at least one digit follows; the captured group is the
maximal digit run after the marker. -/
def findId : List Char → Option (List Char)
  | [] => none
  | c :: cs =>
    match markerTail (c :: cs) with
    | some rest =>
      match digitRun rest with
      | [] => findId cs
      | d :: ds => some (d :: ds)
    | none => findId cs

/-- extract_event_id_from_url (src/app.py): the captured digit run of the
first regex match; none models the ValueError raised when there is no
match anywhere in the string. -/
def extract_event_id_from_url (url : String) : Option String :=
  (findId url.data).map List.asString

/-- Claim side: the pattern matches at position i of the text when a
marker is a prefix of the tail there and a digit immediately follows. -/
def isMatchAt (cs : List Char) (i : Nat) : Bool :=
  match markerTail (cs.drop i) with
  | some rest => !(digitRun rest).isEmpty
  | none => false

/-- Claim side: the identifier captured by a match at position i. -/
def runAfter (cs : List Char) (i : Nat) : List Char :=
  digitRun ((markerTail (cs.drop i)).getD [])

/-- The candidate heuristic of _find_result_items: at least one key from
the rank-key set and at least one key from the nation-key set, compared
by exact, case-sensitive string equality. -/
def isCandidate (kvs : List (String × Json)) : Bool :=
  (kvs.any fun kv => kv.1 == "rank" || kv.1 == "position" || kv.1 == "place") &&
  (kvs.any fun kv =>
    kv.1 == "nation" || kv.1 == "nationShort" || kv.1 == "countryCode" ||
      kv.1 == "country")

mutual
/-- The function _find_result_items (src/app.py): collect, in depth-first
order, every dict that satisfies the heuristic; a matching dict is still
recursed into, so nested matches are collected separately. -/
def find_result_items : Json → List Json
  | .obj kvs => (if isCandidate kvs then [Json.obj kvs] else []) ++ findInObj kvs
  | .arr xs => findInArr xs
  | _ => []
/-- The loop of _find_result_items over a dict's values (document order). -/
def findInObj : List (String × Json) → List Json
  | [] => []
  | (_, v) :: rest => find_result_items v ++ findInObj rest
/-- The loop of _find_result_items over a list's items (index order). -/
def findInArr : List Json → List Json
  | [] => []
  | v :: rest => find_result_items v ++ findInArr rest
end

/-- Claim side: whether a JSON value is a dict matching the heuristic. -/
def isResultLike : Json → Bool
  | .obj kvs => isCandidate kvs
  | _ => false

mutual
/-- Claim side: every dict of a JSON tree in depth-first preorder (a dict
itself first, then its values in document order; array elements in index
order; scalars contribute nothing). -/
def dfsObjects : Json → List Json
  | .obj kvs => Json.obj kvs :: dfsInObj kvs
  | .arr xs => dfsInArr xs
  | _ => []
/-- The preorder walk over a dict's values. -/
def dfsInObj : List (String × Json) → List Json
  | [] => []
  | (_, v) :: rest => dfsObjects v ++ dfsInObj rest
/-- The preorder walk over a list's items. -/
def dfsInArr : List Json → List Json
  | [] => []
  | v :: rest => dfsObjects v ++ dfsInArr rest
end

/-- One row the normalizer appends: the dict with keys Rank, Nation and
Name; nation and name keep the JSON value the code stored. -/
structure PRow where
  rank : Int
  nation : Json
  name : Json

/-- The name computation of parse_results_from_json: DisplayName when
truthy, otherwise FirstName and LastName joined by a space (falsy parts
read as empty strings) with surrounding whitespace stripped. -/
def computeName (item : Json) : Except PyErr Json := do
  let dn ← pyGet item "DisplayName" .null
  if !pyFalsy dn then
    return dn
  else
    let f ← pyGet item "FirstName" .null
    let l ← pyGet item "LastName" .null
    let s1 ← pyAddStr (pyOrEmptyStr f) (.str " ")
    let s2 ← pyAddStr s1 (pyOrEmptyStr l)
    pyStrip s2

/-- The per-item loop of parse_results_from_json: the try block absorbs a
TypeError or ValueError from int(...) as a skip; ranks outside 1..30 and
falsy nations are skipped; any other exception propagates and aborts the
whole call. -/
def buildRows : List Json → Except PyErr (List PRow)
  | [] => .ok []
  | item :: rest => do
    let rankVal ← pyGet item "RankingFinal" .null
    match pyInt rankVal with
    | .error .typeError => buildRows rest
    | .error .valueError => buildRows rest
    | .error e => .error e
    | .ok rank =>
      if 1 ≤ rank ∧ rank ≤ 30 then do
        let nation ← pyGet item "NationCC3" .null
        if pyFalsy nation then buildRows rest
        else do
          let name ← computeName item
          let rs ← buildRows rest
          return ⟨rank, nation, name⟩ :: rs
      else buildRows rest

/-- parse_results_from_json (src/app.py): read data.get("Results", []),
iterate it building rows, then sort the rows ascending by rank
(df.sort_values("Rank")); the concrete sort is modelled by the stable
insertion sort, which the library sort agrees with up to the order of
rows with equal ranks.  Uncaught Python exceptions surface as
Except.error. -/
def parse_results_from_json (data : Json) : Except PyErr (List PRow) := do
  let results ← pyGet data "Results" (.arr [])
  let items ← pyIter results
  let rows ← buildRows items
  return List.insertionSort (fun a b => a.rank ≤ b.rank) rows

/-- A canonical normalized row (the spec's ResultRow) as the aggregator
consumes it. -/
structure ResultRow where
  rank : Int
  nation : String
  name : String
deriving DecidableEq, Repr

/-- One output entry of the aggregator (the spec's NationTotal). -/
structure NationTotal where
  nation : String
  points : Nat
deriving DecidableEq, Repr

/-- Lexicographic comparison of character lists by code point, as Python
compares strings. -/
def charListLe : List Char → List Char → Bool
  | [], _ => true
  | _ :: _, [] => false
  | a :: as, b :: bs =>
    if a.toNat < b.toNat then true
    else if b.toNat < a.toNat then false
    else charListLe as bs

/-- Python string comparison (lexicographic by code point). -/
def strLe (a b : String) : Bool := charListLe a.data b.data

/-- The group keys of df.groupby("Nation"): the distinct nations of the
input, in the ascending key order the library produces groups in. -/
def nationKeys (rows : List ResultRow) : List String :=
  List.insertionSort (fun a b => strLe a b = true) (rows.map fun r => r.nation).dedup

/-- The grouped sums of groupby("Nation")["Points"].sum(): one entry per
distinct nation, keys ascending, each summing the FIS_POINTS-mapped ranks
of its rows (a rank outside the table scored 0 by fillna(0)). -/
def groupTotals (rows : List ResultRow) : List NationTotal :=
  (nationKeys rows).map fun n =>
    ⟨n, ((rows.filter fun r => r.nation == n).map fun r => fisScore r.rank).sum⟩

/-- compute_points_by_nation (src/app.py): group by nation, sum the mapped
points, then sort_values("Points", ascending=False).  The library sorts
descending by computing an ascending order of the grouped rows and
reversing it, so the model applies the stable ascending insertion sort to
the grouped rows and reverses the result. -/
def compute_points_by_nation (rows : List ResultRow) : List NationTotal :=
  (List.insertionSort (fun a b => a.points ≤ b.points) (groupTotals rows)).reverse

/-- A name field whose value cannot make the name synthesis raise: a falsy
value reads as the empty string, and a string concatenates. -/
def nameFieldOk (j : Json) : Bool :=
  pyFalsy j ||
    match j with
    | .str _ => true
    | _ => false

/-- A Results entry the normalizer handles without an uncaught exception:
a dict whose FirstName and LastName bindings are falsy or strings. -/
def itemWF : Json → Bool
  | .obj kvs =>
    nameFieldOk ((kvs.lookup "FirstName").getD .null) &&
      nameFieldOk ((kvs.lookup "LastName").getD .null)
  | _ => false

/-- A document the normalizer handles without an uncaught exception: a
dict whose Results binding, when present, is a list of well-formed
entries. -/
def resultsWF : Json → Bool
  | .obj kvs =>
    match kvs.lookup "Results" with
    | none => true
    | some (.arr items) => items.all itemWF
    | some _ => false
  | _ => false

/-- The entries of the Results list of a document (empty when the key is
absent or the document has no such list). -/
def resultsItems : Json → List Json
  | .obj kvs =>
    match kvs.lookup "Results" with
    | some (.arr items) => items
    | _ => []
  | _ => []

/-- Field access on a dict value, reading an absent key or a non-dict as
None (claim-side shorthand for item.get(key)). -/
def objGet (item : Json) (key : String) : Json :=
  match item with
  | .obj kvs => (kvs.lookup key).getD .null
  | _ => .null

/-- Claim side: the (rank, nation) content of the row a Results entry
yields, none when the entry yields no row — the rank must convert via
int() to a value in 1..30 and the nation must be present and truthy. -/
def specRankNation (item : Json) : Option (Int × Json) :=
  match pyInt (objGet item "RankingFinal") with
  | .error _ => none
  | .ok rank =>
    if 1 ≤ rank ∧ rank ≤ 30 then
      let nation := objGet item "NationCC3"
      if pyFalsy nation then none else some (rank, nation)
    else none

/-! ## Helper lemmas -/

/-- A lookup misses when no key of the association list is the one sought. -/
theorem lookup_eq_none_of_ne {β : Type} (l : List (Int × β)) (r : Int)
    (h : ∀ kv ∈ l, kv.1 ≠ r) : l.lookup r = none := by
  induction l with
  | nil => rfl
  | cons kv t ih =>
    have h1 : kv.1 ≠ r := h kv (List.mem_cons_self kv t)
    have hb : (r == kv.1) = false := beq_eq_false_iff_ne.mpr (Ne.symm h1)
    have ht : t.lookup r = none := ih fun x hx => h x (List.mem_cons_of_mem kv hx)
    simp [List.lookup, hb, ht]

instance instPointsLeTotal : IsTotal NationTotal fun a b => a.points ≤ b.points :=
  ⟨fun a b => Nat.le_total a.points b.points⟩

instance instPointsLeTrans : IsTrans NationTotal fun a b => a.points ≤ b.points :=
  ⟨fun _ _ _ hab hbc => Nat.le_trans hab hbc⟩

mutual
/-- The collector equals the preorder dict enumeration filtered by the
heuristic (value part). -/
theorem findItems_eq_filter :
    ∀ j : Json, find_result_items j = (dfsObjects j).filter isResultLike
  | .null => rfl
  | .bool _ => rfl
  | .num _ => rfl
  | .str _ => rfl
  | .arr xs => by simp [find_result_items, dfsObjects, findInArr_eq_filter xs]
  | .obj kvs => by
    rw [find_result_items, dfsObjects, List.filter_cons]
    cases h : isCandidate kvs
    case false => simp [isResultLike, h, findInObj_eq_filter kvs]
    case true => simp [isResultLike, h, findInObj_eq_filter kvs]
/-- The collector equals the filtered preorder enumeration (dict loop). -/
theorem findInObj_eq_filter :
    ∀ kvs : List (String × Json), findInObj kvs = (dfsInObj kvs).filter isResultLike
  | [] => rfl
  | (_, v) :: rest => by
    simp [findInObj, dfsInObj, findItems_eq_filter v, findInObj_eq_filter rest,
      List.filter_append]
/-- The collector equals the filtered preorder enumeration (list loop). -/
theorem findInArr_eq_filter :
    ∀ xs : List Json, findInArr xs = (dfsInArr xs).filter isResultLike
  | [] => rfl
  | v :: rest => by
    simp [findInArr, dfsInArr, findItems_eq_filter v, findInArr_eq_filter rest,
      List.filter_append]
end

/-- Splitting a mapped sum along a Boolean predicate on the elements. -/
theorem sum_map_filter_split (p : ResultRow → Bool) (f : ResultRow → Nat)
    (l : List ResultRow) :
    ((l.filter p).map f).sum + ((l.filter fun r => !(p r)).map f).sum = (l.map f).sum := by
  induction l with
  | nil => rfl
  | cons a t ih =>
    cases h : p a <;> simp [List.filter_cons, h] <;> omega

/-- Summing the per-key filtered sums over distinct keys covering every
row gives the total sum. -/
theorem sum_group_sums (keys : List String) (rows : List ResultRow)
    (hnd : keys.Nodup) (hcov : ∀ r ∈ rows, r.nation ∈ keys) :
    (keys.map fun n =>
        ((rows.filter fun r => r.nation == n).map fun r => fisScore r.rank).sum).sum
      = (rows.map fun r => fisScore r.rank).sum := by
  induction keys generalizing rows with
  | nil =>
    have hempty : rows = [] :=
      List.eq_nil_iff_forall_not_mem.mpr fun r hr => by simpa using hcov r hr
    simp [hempty]
  | cons k ks ih =>
    have hk_not : k ∉ ks := (List.nodup_cons.mp hnd).1
    have hnd2 : ks.Nodup := (List.nodup_cons.mp hnd).2
    have hmap : (ks.map fun n =>
          ((rows.filter fun r => r.nation == n).map fun r => fisScore r.rank).sum)
        = ks.map fun n =>
            ((((rows.filter fun r => !(r.nation == k)).filter
                fun r => r.nation == n)).map fun r => fisScore r.rank).sum := by
      apply List.map_congr_left
      intro n hn
      have hneq : n ≠ k := fun he => hk_not (he ▸ hn)
      congr 1
      congr 1
      rw [List.filter_filter]
      apply List.filter_congr
      intro r _
      cases hrn : r.nation == n
      · simp
      · have hr_eq : r.nation = n := by simpa using hrn
        have hk_false : (r.nation == k) = false := by
          rw [hr_eq]
          exact beq_eq_false_iff_ne.mpr hneq
        simp [hk_false]
    have hcov2 : ∀ r ∈ rows.filter fun r => !(r.nation == k), r.nation ∈ ks := by
      intro r hr
      have hmem := List.mem_filter.mp hr
      have hne : r.nation ≠ k := by simpa using hmem.2
      rcases List.mem_cons.mp (hcov r hmem.1) with he | hm
      · exact absurd he hne
      · exact hm
    rw [List.map_cons, List.sum_cons, hmap, ih _ hnd2 hcov2]
    exact sum_map_filter_split (fun r => r.nation == k) _ rows

/-- Projecting the nation out of rows built over a key list gives back the
key list. -/
theorem map_nation_mk (g : String → Nat) (ks : List String) :
    (ks.map fun n => (⟨n, g n⟩ : NationTotal)).map (fun e => e.nation) = ks := by
  induction ks with
  | nil => rfl
  | cons a t ih => simp [ih]

/-- The nations of the grouped rows are the group keys. -/
theorem groupTotals_nations (rows : List ResultRow) :
    (groupTotals rows).map (fun e => e.nation) = nationKeys rows :=
  map_nation_mk _ _

/-- The group keys carry no duplicate nation. -/
theorem nationKeys_nodup (rows : List ResultRow) : (nationKeys rows).Nodup :=
  (List.perm_insertionSort _ _).nodup_iff.mpr (List.nodup_dedup _)

/-- A nation is a group key exactly when some input row carries it. -/
theorem nationKeys_mem (rows : List ResultRow) (n : String) :
    n ∈ nationKeys rows ↔ n ∈ rows.map fun r => r.nation :=
  ((List.perm_insertionSort _ _).mem_iff).trans (List.mem_dedup)

/-- The aggregator's output is a permutation of the grouped rows. -/
theorem compute_perm_groupTotals (rows : List ResultRow) :
    List.Perm (compute_points_by_nation rows) (groupTotals rows) := by
  unfold compute_points_by_nation
  exact (List.reverse_perm _).trans (List.perm_insertionSort _ _)

/-- Every row's nation is one of the group keys. -/
theorem nation_mem_nationKeys (rows : List ResultRow) (r : ResultRow)
    (hr : r ∈ rows) : r.nation ∈ nationKeys rows :=
  (nationKeys_mem rows r.nation).mpr (List.mem_map.mpr ⟨r, hr, rfl⟩)

/-! ## Claim theorems -/

/-- C6: the points table is defined exactly on ranks 1..30 with the listed
values, its keys all lie in 1..30 (no entries beyond rank 30), its values
strictly decrease as the rank increases, and every rank outside 1..30 is
absent from the table and scores 0. -/
theorem fis_points_exact :
    (fisScore 1 = 100 ∧ fisScore 2 = 80 ∧ fisScore 3 = 60 ∧ fisScore 4 = 50 ∧
      fisScore 5 = 45 ∧ fisScore 6 = 40 ∧ fisScore 7 = 36 ∧ fisScore 8 = 32 ∧
      fisScore 9 = 29 ∧ fisScore 10 = 26 ∧ fisScore 11 = 24 ∧ fisScore 12 = 22 ∧
      fisScore 13 = 20 ∧ fisScore 14 = 18 ∧ fisScore 15 = 16 ∧ fisScore 16 = 15 ∧
      fisScore 17 = 14 ∧ fisScore 18 = 13 ∧ fisScore 19 = 12 ∧ fisScore 20 = 11 ∧
      fisScore 21 = 10 ∧ fisScore 22 = 9 ∧ fisScore 23 = 8 ∧ fisScore 24 = 7 ∧
      fisScore 25 = 6 ∧ fisScore 26 = 5 ∧ fisScore 27 = 4 ∧ fisScore 28 = 3 ∧
      fisScore 29 = 2 ∧ fisScore 30 = 1) ∧
    (∀ kv ∈ FIS_POINTS, 1 ≤ kv.1 ∧ kv.1 ≤ 30) ∧
    (∀ r s : Int, 1 ≤ r → r < s → s ≤ 30 → fisScore s < fisScore r) ∧
    (∀ r : Int, r < 1 ∨ 30 < r → FIS_POINTS.lookup r = none ∧ fisScore r = 0) := by
  refine ⟨by decide, by decide, ?_, ?_⟩
  · intro r s h1 h2 h3
    have h4 : r ≤ 29 := by omega
    interval_cases r <;> interval_cases s <;> decide
  · intro r hr
    have hball : ∀ kv ∈ FIS_POINTS, 1 ≤ kv.1 ∧ kv.1 ≤ 30 := by decide
    have hk : ∀ kv ∈ FIS_POINTS, kv.1 ≠ r := by
      intro kv hkv
      have hb := hball kv hkv
      omega
    have hnone := lookup_eq_none_of_ne FIS_POINTS r hk
    exact ⟨hnone, by simp [fisScore, hnone]⟩

/-- C4 (amended): the aggregator's output is ordered so that the summed
points never increase along the list; the order of nations with equal
totals is a fixed function of the input (the reversal of a stable
ascending sort of the alphabetically grouped nations), but it is not the
first-encountered group order and no tie-break rule is documented. -/
theorem totals_sorted_desc (rows : List ResultRow) :
    (compute_points_by_nation rows).Pairwise fun a b => b.points ≤ a.points := by
  unfold compute_points_by_nation
  rw [List.pairwise_reverse]
  exact List.sorted_insertionSort _ _

/-- C4 counterexample: with rows AUT then SUI tied at rank 3 (60 points
each), the first-encountered group order is AUT before SUI, yet the
aggregator returns SUI before AUT — the tie order is not the stable
first-encountered group order the claim offers as the documented rule. -/
theorem totals_tiebreak_not_first_seen :
    compute_points_by_nation [⟨3, "AUT", "a"⟩, ⟨3, "SUI", "b"⟩] =
        [⟨"SUI", 60⟩, ⟨"AUT", 60⟩] ∧
      ([⟨3, "AUT", "a"⟩, ⟨3, "SUI", "b"⟩] : List ResultRow).map (fun r => r.nation) =
        ["AUT", "SUI"] :=
  ⟨rfl, rfl⟩

/-- C9: find_result_items returns exactly the dicts of the tree that have
at least one rank-like key and at least one nation-like key, in
depth-first preorder (a matched dict is still recursed into, nested
matches are kept separately, and scalars contribute nothing). -/
theorem find_result_items_spec (j : Json) :
    find_result_items j = (dfsObjects j).filter isResultLike :=
  findItems_eq_filter j

/-- C1: the total of the aggregator's per-nation points equals the sum of
the table score of every input row's rank, duplicates counted as often as
they occur. -/
theorem points_sum_invariant (rows : List ResultRow) :
    ((compute_points_by_nation rows).map fun e => e.points).sum
      = (rows.map fun r => fisScore r.rank).sum := by
  have hperm := (compute_perm_groupTotals rows).map fun e => e.points
  rw [hperm.sum_eq]
  have hproj : ((groupTotals rows).map fun e => e.points)
      = (nationKeys rows).map fun n =>
          ((rows.filter fun r => r.nation == n).map fun r => fisScore r.rank).sum := by
    unfold groupTotals
    rw [List.map_map]
    rfl
  rw [hproj]
  exact sum_group_sums (nationKeys rows) rows (nationKeys_nodup rows)
    fun r hr => nation_mem_nationKeys rows r hr

/-- C3: the aggregator yields exactly one entry per distinct nation string
of the input (exact string equality), and each entry's points are the sum
of the table scores of that nation's rows, a rank absent from the table
scoring 0. -/
theorem one_entry_per_nation (rows : List ResultRow) :
    ((compute_points_by_nation rows).map fun e => e.nation).Nodup ∧
    (∀ n : String, n ∈ (compute_points_by_nation rows).map (fun e => e.nation) ↔
        n ∈ rows.map fun r => r.nation) ∧
    (∀ e ∈ compute_points_by_nation rows,
        e.points = ((rows.filter fun r => r.nation == e.nation).map
          fun r => fisScore r.rank).sum) := by
  have hperm := (compute_perm_groupTotals rows).map fun e => e.nation
  refine ⟨?_, ?_, ?_⟩
  · exact hperm.nodup_iff.mpr (by rw [groupTotals_nations]; exact nationKeys_nodup rows)
  · intro n
    rw [hperm.mem_iff, groupTotals_nations, nationKeys_mem]
  · intro e he
    have he2 : e ∈ groupTotals rows := (compute_perm_groupTotals rows).mem_iff.mp he
    obtain ⟨n, hn, hne⟩ := List.mem_map.mp he2
    rw [← hne]

/-- Monadic bind on an ok value reduces to application. -/
theorem exc_bind_ok {α β : Type} (a : α) (f : α → Except PyErr β) :
    (Except.ok a : Except PyErr α) >>= f = f a := rfl

/-- Monadic bind on an error short-circuits. -/
theorem exc_bind_err {α β : Type} (e : PyErr) (f : α → Except PyErr β) :
    (Except.error e : Except PyErr α) >>= f = .error e := rfl

/-- Pure is ok. -/
theorem exc_pure {α : Type} (a : α) : (pure a : Except PyErr α) = .ok a := rfl

/-- Reading a key of a dict never raises and yields the binding or the
default. -/
theorem pyGet_obj (kvs : List (String × Json)) (k : String) (d : Json) :
    pyGet (.obj kvs) k d = .ok ((kvs.lookup k).getD d) := by
  cases h : kvs.lookup k <;> simp [pyGet, h]

/-- int() raises only TypeError or ValueError, never AttributeError. -/
theorem pyInt_ne_attr (j : Json) : pyInt j ≠ .error .attributeError := by
  cases j with
  | str s => cases h : pyIntOfStr s <;> simp [pyInt, h]
  | _ => simp [pyInt]

/-- A falsy-or-string value turns into a string under (x or ""). -/
theorem nameField_orEmpty (j : Json) (h : nameFieldOk j = true) :
    ∃ s : String, pyOrEmptyStr j = .str s := by
  unfold pyOrEmptyStr
  cases hf : pyFalsy j
  · unfold nameFieldOk at h
    rw [hf] at h
    cases j <;> simp_all
  · exact ⟨"", by simp [hf]⟩

/-- On a well-formed entry the name synthesis never raises. -/
theorem computeName_ok (item : Json) (h : itemWF item = true) :
    ∃ name, computeName item = .ok name := by
  cases item with
  | obj kvs =>
    have hwf := h
    simp only [itemWF, Bool.and_eq_true] at hwf
    obtain ⟨hf, hl⟩ := hwf
    obtain ⟨sf, hsf⟩ := nameField_orEmpty _ hf
    obtain ⟨sl, hsl⟩ := nameField_orEmpty _ hl
    cases hdn : pyFalsy ((kvs.lookup "DisplayName").getD .null)
    · exact ⟨(kvs.lookup "DisplayName").getD .null,
        by simp [computeName, pyGet_obj, exc_bind_ok, hdn, exc_pure]⟩
    · refine ⟨Json.str (stripChars (sf ++ " " ++ sl).data).asString, ?_⟩
      simp [computeName, pyGet_obj, exc_bind_ok, hdn, hsf, hsl, pyAddStr, pyStrip]
  | null => simp [itemWF] at h
  | bool b => simp [itemWF] at h
  | num q => simp [itemWF] at h
  | str s => simp [itemWF] at h
  | arr xs => simp [itemWF] at h

/-- On well-formed entries the row loop never raises, and the (rank,
nation) content of its rows is exactly the claim-side selection. -/
theorem buildRows_wf :
    ∀ items : List Json, (∀ x ∈ items, itemWF x = true) →
      ∃ rows, buildRows items = .ok rows ∧
        rows.map (fun r => (r.rank, r.nation)) = items.filterMap specRankNation
  | [], _ => ⟨[], rfl, rfl⟩
  | item :: rest, h => by
    have hitem : itemWF item = true := h item (List.mem_cons_self item rest)
    have hrest : ∀ x ∈ rest, itemWF x = true :=
      fun x hx => h x (List.mem_cons_of_mem item hx)
    obtain ⟨rows, hb, hmap⟩ := buildRows_wf rest hrest
    cases item with
    | obj kvs =>
      cases hpi : pyInt ((kvs.lookup "RankingFinal").getD .null) with
      | error e =>
        cases e with
        | typeError =>
          refine ⟨rows, ?_, ?_⟩
          · simp [buildRows, pyGet_obj, exc_bind_ok, hpi, hb]
          · simp [List.filterMap_cons, specRankNation, objGet, hpi, hmap]
        | valueError =>
          refine ⟨rows, ?_, ?_⟩
          · simp [buildRows, pyGet_obj, exc_bind_ok, hpi, hb]
          · simp [List.filterMap_cons, specRankNation, objGet, hpi, hmap]
        | attributeError => exact absurd hpi (pyInt_ne_attr _)
      | ok rank =>
        by_cases hr : 1 ≤ rank ∧ rank ≤ 30
        · cases hn : pyFalsy ((kvs.lookup "NationCC3").getD .null)
          · obtain ⟨name, hname⟩ := computeName_ok (Json.obj kvs) hitem
            refine ⟨⟨rank, (kvs.lookup "NationCC3").getD .null, name⟩ :: rows, ?_, ?_⟩
            · simp [buildRows, pyGet_obj, exc_bind_ok, hpi, hr, hn, hname, hb, exc_pure]
            · simp [List.filterMap_cons, specRankNation, objGet, hpi, hr, hn, hmap]
          · refine ⟨rows, ?_, ?_⟩
            · simp [buildRows, pyGet_obj, exc_bind_ok, hpi, hr, hn, hb]
            · simp [List.filterMap_cons, specRankNation, objGet, hpi, hr, hn, hmap]
        · refine ⟨rows, ?_, ?_⟩
          · simp [buildRows, pyGet_obj, exc_bind_ok, hpi, hr, hb]
          · simp [List.filterMap_cons, specRankNation, objGet, hpi, hr, hmap]
    | null => simp [itemWF] at hitem
    | bool b => simp [itemWF] at hitem
    | num q => simp [itemWF] at hitem
    | str s => simp [itemWF] at hitem
    | arr xs => simp [itemWF] at hitem

/-- On a well-formed document the normalizer returns ok, and its rows'
(rank, nation) content is a permutation of the claim-side selection over
the Results entries. -/
theorem parse_wf_core (data : Json) (h : resultsWF data = true) :
    ∃ l, parse_results_from_json data = .ok l ∧
      List.Perm (l.map fun r => (r.rank, r.nation))
        ((resultsItems data).filterMap specRankNation) := by
  cases data with
  | obj kvs =>
    have hwf := h
    simp only [resultsWF] at hwf
    cases hres : kvs.lookup "Results" with
    | none =>
      refine ⟨[], ?_, ?_⟩
      · simp [parse_results_from_json, pyGet_obj, hres, exc_bind_ok, pyIter,
          buildRows, exc_pure]
      · simp [resultsItems, hres]
    | some v =>
      rw [hres] at hwf
      cases v with
      | arr items =>
        have hall : ∀ x ∈ items, itemWF x = true := by
          intro x hx
          exact List.all_eq_true.mp hwf x hx
        obtain ⟨rows, hb, hmap⟩ := buildRows_wf items hall
        refine ⟨List.insertionSort (fun a b => a.rank ≤ b.rank) rows, ?_, ?_⟩
        · simp [parse_results_from_json, pyGet_obj, hres, exc_bind_ok, pyIter, hb, exc_pure]
        · have hperm := (List.perm_insertionSort (fun a b : PRow => a.rank ≤ b.rank) rows).map
            fun r => (r.rank, r.nation)
          rw [hmap] at hperm
          simpa [resultsItems, hres] using hperm
      | null => simp at hwf
      | bool b => simp at hwf
      | num q => simp at hwf
      | str s => simp at hwf
      | obj kvs2 => simp at hwf
  | null => simp [resultsWF] at h
  | bool b => simp [resultsWF] at h
  | num q => simp [resultsWF] at h
  | str s => simp [resultsWF] at h
  | arr xs => simp [resultsWF] at h

/-- The spec's Scenario B document: two scoring Austrian entries and a
rank-31 Swiss entry. -/
def docB : Json :=
  Json.obj [("Results", Json.arr [
    Json.obj [("RankingFinal", Json.str "1"), ("NationCC3", Json.str "AUT"),
      ("DisplayName", Json.str "A")],
    Json.obj [("RankingFinal", Json.str "2"), ("NationCC3", Json.str "AUT"),
      ("DisplayName", Json.str "B")],
    Json.obj [("RankingFinal", Json.str "31"), ("NationCC3", Json.str "SUI")]])]

/-- A document with an unparseable DNF rank beside a scoring entry. -/
def docC : Json :=
  Json.obj [("Results", Json.arr [
    Json.obj [("RankingFinal", Json.str "DNF"), ("NationCC3", Json.str "SUI")],
    Json.obj [("RankingFinal", Json.str "1"), ("NationCC3", Json.str "AUT")]])]

/-- A single-entry document whose rank is the raw number q. -/
def docNum (q : Rat) : Json :=
  Json.obj [("Results", Json.arr [
    Json.obj [("RankingFinal", Json.num q), ("NationCC3", Json.str "AUT")]])]

/-- C2 (amended): on a document whose Results value, when present, is a
list of dicts with falsy-or-string name fields, the normalizer returns a
row sequence holding a row exactly for those entries whose RankingFinal
converts via int() to a rank in 1..30 and whose NationCC3 is present and
truthy; in particular a document with no Results key yields the empty
sequence rather than an error.  Without that well-formedness the call can
raise instead of skipping (see the counterexample). -/
theorem parse_rows_exactly (data : Json) (h : resultsWF data = true) :
    ∃ l, parse_results_from_json data = .ok l ∧
      List.Perm (l.map fun r => (r.rank, r.nation))
        ((resultsItems data).filterMap specRankNation) :=
  parse_wf_core data h

/-- C2 witness: Scenario B — the two rank-1 and rank-2 Austrian entries
produce rows and the rank-31 entry produces none. -/
theorem parse_rows_exactly_witness :
    ∃ l, parse_results_from_json docB = .ok l ∧
      List.Perm (l.map fun r => (r.rank, r.nation))
        ((resultsItems docB).filterMap specRankNation) :=
  parse_rows_exactly docB (by rfl)

/-- C2 counterexample: a Results list holding a valid scoring entry and
then the bare number 17.  The claim promises a row for the valid entry,
but the code raises an uncaught AttributeError at 17 .get(...) and emits
nothing at all. -/
theorem parse_error_on_nondict_entry :
    parse_results_from_json (Json.obj [("Results", Json.arr [
      Json.obj [("RankingFinal", Json.str "1"), ("NationCC3", Json.str "AUT")],
      Json.num 17])]) = .error .attributeError := rfl

/-- C8 (amended): the normalizer raises no exception on documents whose
Results value, when present, is a list of dicts with falsy-or-string name
fields — per-item rank-conversion failures (TypeError and ValueError from
int()) are absorbed as skips.  A non-iterable Results value or a non-dict
entry still raises, since only the rank conversion is protected. -/
theorem parse_no_uncaught (data : Json) (h : resultsWF data = true) :
    ∃ l, parse_results_from_json data = .ok l :=
  (parse_wf_core data h).elim fun l hl => ⟨l, hl.1⟩

/-- C8 witness: a document with an unparseable DNF rank returns ok — the
conversion failure is absorbed as a skip, not propagated. -/
theorem parse_no_uncaught_witness :
    ∃ l, parse_results_from_json docC = .ok l :=
  parse_no_uncaught docC (by rfl)

/-- C8 counterexample: with Results bound to the number 5 the for loop
iterates a non-iterable and the code raises an uncaught TypeError — the
call does not return a row sequence. -/
theorem parse_error_on_noniterable_results :
    parse_results_from_json (Json.obj [("Results", Json.num 5)])
      = .error .typeError := rfl

/-- C10: a numeric RankingFinal is not rejected: int() truncates it toward
zero, and the entry survives with the truncated rank whenever that rank
lies in 1..30. -/
theorem float_rank_truncates (q : Rat) (h1 : 1 ≤ ratTrunc q) (h2 : ratTrunc q ≤ 30) :
    pyInt (Json.num q) = .ok (ratTrunc q) ∧
      parse_results_from_json (docNum q)
        = .ok [⟨ratTrunc q, Json.str "AUT", Json.str ""⟩] := by
  refine ⟨rfl, ?_⟩
  have hb : buildRows [Json.obj [("RankingFinal", Json.num q), ("NationCC3", Json.str "AUT")]]
      = if 1 ≤ ratTrunc q ∧ ratTrunc q ≤ 30
        then .ok [⟨ratTrunc q, Json.str "AUT", Json.str ""⟩] else .ok [] := rfl
  show (do
      let rows ← buildRows [Json.obj [("RankingFinal", Json.num q), ("NationCC3", Json.str "AUT")]]
      Except.ok (List.insertionSort (fun a b => a.rank ≤ b.rank) rows))
    = Except.ok [(⟨ratTrunc q, Json.str "AUT", Json.str ""⟩ : PRow)]
  rw [hb, if_pos ⟨h1, h2⟩, exc_bind_ok]
  rfl

/-- C10 witness: the float 5.7 truncates to rank 5 and the entry survives
with that rank. -/
theorem float_rank_truncates_witness :
    pyInt (Json.num (mkRat 57 10)) = .ok (ratTrunc (mkRat 57 10)) ∧
      parse_results_from_json (docNum (mkRat 57 10))
        = .ok [⟨ratTrunc (mkRat 57 10), Json.str "AUT", Json.str ""⟩] :=
  float_rank_truncates (mkRat 57 10) (by decide) (by decide)

/-- The match test shifts under cons. -/
theorem isMatchAt_succ (c : Char) (cs : List Char) (i : Nat) :
    isMatchAt (c :: cs) (i + 1) = isMatchAt cs i := by
  simp [isMatchAt]

/-- The captured run shifts under cons. -/
theorem runAfter_succ (c : Char) (cs : List Char) (i : Nat) :
    runAfter (c :: cs) (i + 1) = runAfter cs i := by
  simp [runAfter]

/-- Nothing matches in the empty text. -/
theorem isMatchAt_nil (i : Nat) : isMatchAt [] i = false := by
  have h : markerTail [] = none := rfl
  simp [isMatchAt, List.drop_nil, h]

/-- The characterization the scan is proved to satisfy: it returns none
exactly when no position matches, and otherwise the capture of the least
matching position, which is a nonempty digit run. -/
def FindIdSpec (cs : List Char) : Prop :=
  (findId cs = none ↔ ∀ i, isMatchAt cs i = false) ∧
  (∀ r, findId cs = some r →
    ∃ i, isMatchAt cs i = true ∧ (∀ j, j < i → isMatchAt cs j = false) ∧
      r = runAfter cs i ∧ r ≠ [])

/-- Extending the text by a non-matching head shifts the characterization. -/
theorem findIdSpec_shift (c : Char) (cs : List Char)
    (h0 : isMatchAt (c :: cs) 0 = false)
    (hfind : findId (c :: cs) = findId cs)
    (ih : FindIdSpec cs) : FindIdSpec (c :: cs) := by
  constructor
  · constructor
    · intro hnone i
      have hcs := ih.1.mp (hfind ▸ hnone)
      cases i with
      | zero => exact h0
      | succ j => rw [isMatchAt_succ]; exact hcs j
    · intro hall
      rw [hfind]
      refine ih.1.mpr fun i => ?_
      have hi := hall (i + 1)
      rwa [isMatchAt_succ] at hi
  · intro r hr
    rw [hfind] at hr
    obtain ⟨i, h1, h2, h3, h4⟩ := ih.2 r hr
    refine ⟨i + 1, ?_, ?_, ?_, h4⟩
    · rw [isMatchAt_succ]; exact h1
    · intro j hj
      cases j with
      | zero => exact h0
      | succ k => rw [isMatchAt_succ]; exact h2 k (by omega)
    · rw [runAfter_succ]; exact h3

/-- The scan satisfies the characterization on every text. -/
theorem findId_characterization : ∀ cs : List Char, FindIdSpec cs := by
  intro cs
  induction cs with
  | nil =>
    constructor
    · exact ⟨fun _ i => isMatchAt_nil i, fun _ => rfl⟩
    · intro r hr
      exact absurd hr (by simp [findId])
  | cons c cs ih =>
    cases hm : markerTail (c :: cs) with
    | none =>
      have h0 : isMatchAt (c :: cs) 0 = false := by simp [isMatchAt, hm]
      have hfind : findId (c :: cs) = findId cs := by simp [findId, hm]
      exact findIdSpec_shift c cs h0 hfind ih
    | some rest =>
      cases hd : digitRun rest with
      | nil =>
        have h0 : isMatchAt (c :: cs) 0 = false := by simp [isMatchAt, hm, hd]
        have hfind : findId (c :: cs) = findId cs := by simp [findId, hm, hd]
        exact findIdSpec_shift c cs h0 hfind ih
      | cons d ds =>
        have hfind : findId (c :: cs) = some (d :: ds) := by simp [findId, hm, hd]
        have h0 : isMatchAt (c :: cs) 0 = true := by simp [isMatchAt, hm, hd]
        constructor
        · constructor
          · intro hnone
            rw [hfind] at hnone
            exact absurd hnone (by simp)
          · intro hall
            have := hall 0
            rw [h0] at this
            exact absurd this (by simp)
        · intro r hr
          rw [hfind] at hr
          have hrd : r = d :: ds := by
            injection hr with h
            exact h.symm
          refine ⟨0, h0, by omega, ?_, by simp [hrd]⟩
          rw [hrd]
          show d :: ds = runAfter (c :: cs) 0
          simp [runAfter, hm, hd]

/-- C5: the extractor returns the maximal digit run immediately following
the leftmost position where a marker (/event/ or /sportevents/) is
directly followed by a digit, and fails (the InvalidURL ValueError)
exactly when no position of the string matches; a returned identifier is
never empty and never a strict prefix of the digit run it comes from. -/
theorem extract_event_id_spec (url : String) :
    (extract_event_id_from_url url = none ↔ ∀ i, isMatchAt url.data i = false) ∧
    (∀ r : String, extract_event_id_from_url url = some r →
      ∃ i, isMatchAt url.data i = true ∧ (∀ j, j < i → isMatchAt url.data j = false) ∧
        r = (runAfter url.data i).asString ∧ r ≠ "") := by
  have hc := findId_characterization url.data
  constructor
  · rw [← hc.1]
    unfold extract_event_id_from_url
    cases h : findId url.data <;> simp [h]
  · intro r hr
    unfold extract_event_id_from_url at hr
    cases h : findId url.data with
    | none => rw [h] at hr; exact absurd hr (by simp)
    | some cs2 =>
      rw [h] at hr
      have hr2 : cs2.asString = r := by simpa using hr
      obtain ⟨i, h1, h2, h3, h4⟩ := hc.2 cs2 h
      refine ⟨i, h1, h2, ?_, ?_⟩
      · rw [← hr2, h3]
      · rw [← hr2]
        intro hemp
        exact h4 (congrArg String.data hemp)

end SkiWC
